import Mathlib

/-!
# Verification of the `readContract` read-only contract-call pipeline

The single source file (`src/actions/public/readContract.ts`) implements the
top-level operation: it resolves and encodes calldata with
`encodeFunctionData`, performs the call, decodes the response with
`decodeFunctionResult`, and wraps any error raised after encoding with
`getContractError`.  Those helpers live outside the provided source tree, so
they are modelled from the specification (sections 4.1, 4.2, 4.4, 4.5);
`readContract` itself is embedded from the source.

Byte sequences are `List Nat` (each entry a byte value), machine words are
`Nat` with explicit `% 2 ^ 256` where overflow matters.
-/

namespace Viem

/-- Decidable equality for `Except`, used to evaluate the pipeline's results
on concrete inputs. -/
instance {ε α : Type} [DecidableEq ε] [DecidableEq α] : DecidableEq (Except ε α) :=
  fun a b =>
    match a, b with
    | .error x, .error y =>
      if h : x = y then .isTrue (by rw [h])
      else .isFalse (fun c => h (Except.error.inj c))
    | .ok x, .ok y =>
      if h : x = y then .isTrue (by rw [h])
      else .isFalse (fun c => h (Except.ok.inj c))
    | .error _, .ok _ => .isFalse (fun c => Except.noConfusion c)
    | .ok _, .error _ => .isFalse (fun c => Except.noConfusion c)

/-- Modelled from the spec (section 3, design note 2): the ABI type grammar as
a closed tagged-variant type.  The grammar's static core (`uint256`, `address`,
`bool`) and its dynamic types (`string`, `bytes`) are modelled; nested arrays
and tuples (also part of the grammar, implemented outside the provided source
tree) are omitted. -/
inductive AbiType where
  | uint256
  | address
  | bool
  | string
  | bytes
deriving DecidableEq

/-- A runtime argument / result value, one constructor per modelled ABI type. -/
inductive AbiValue where
  | uint (n : Nat)
  | addr (a : Nat)
  | boolean (b : Bool)
  | str (s : List Nat)
  | bytesV (s : List Nat)
deriving DecidableEq

/-- Modelled from the spec (section 3): value/type conformance.  Integers must
fit in 256 bits, addresses in 160 bits, and dynamic content must consist of
byte values. -/
def hasType : AbiValue → AbiType → Bool
  | .uint n, .uint256 => decide (n < 2 ^ 256)
  | .addr a, .address => decide (a < 2 ^ 160)
  | .boolean _, .bool => true
  | .str s, .string => s.all (fun b => decide (b < 256))
  | .bytesV s, .bytes => s.all (fun b => decide (b < 256))
  | _, _ => false

/-- Modelled from the spec (glossary): static types have fixed encoded width;
dynamic types require the offset/length indirection scheme. -/
def isDynamic : AbiType → Bool
  | .string => true
  | .bytes => true
  | _ => false

/-- Canonical name of an ABI type, used in canonical signature strings. -/
def abiTypeName : AbiType → String
  | .uint256 => "uint256"
  | .address => "address"
  | .bool => "bool"
  | .string => "string"
  | .bytes => "bytes"

/-- Big-endian byte encoding of `n`, `w` bytes wide (truncating to `2 ^ (8*w)`). -/
def beBytes : Nat → Nat → List Nat
  | 0, _ => []
  | w + 1, n => beBytes w (n / 256) ++ [n % 256]

/-- Big-endian value of a byte sequence. -/
def beVal (bs : List Nat) : Nat := bs.foldl (fun acc b => acc * 256 + b) 0

/-- Number of zero padding bytes needed to extend `n` bytes of content to a
multiple of the 32-byte word width. -/
def padLen (n : Nat) : Nat := (32 - n % 32) % 32

/-- Modelled from the spec (section 4.2): in-place encoding of a static value,
left-padded to the 32-byte word width.  The catch-all branches for dynamic
values are unreachable: `encode` only encodes arguments that passed the
`hasType` shape check. -/
def encStatic : AbiValue → List Nat
  | .uint n => beBytes 32 n
  | .addr a => beBytes 32 a
  | .boolean b => beBytes 32 (if b then 1 else 0)
  | .str _ => beBytes 32 0
  | .bytesV _ => beBytes 32 0

/-- Modelled from the spec (section 4.2): tail encoding of a dynamic value,
a length word followed by the content, zero-padded to a word multiple. -/
def encTail : AbiValue → List Nat
  | .str s => beBytes 32 s.length ++ s ++ List.replicate (padLen s.length) 0
  | .bytesV s => beBytes 32 s.length ++ s ++ List.replicate (padLen s.length) 0
  | _ => []

/-- Modelled from the spec (section 4.2): head/tail accumulation.  `hSize` is
the byte size of the whole head section; `tLen` is the number of tail bytes
already emitted, so a dynamic head word holds the offset `hSize + tLen`.
Returns the remaining (head section, tail section) pair. -/
def encodeHeads (hSize : Nat) : List (AbiType × AbiValue) → Nat → List Nat × List Nat
  | [], _ => ([], [])
  | (t, v) :: rest, tLen =>
    if isDynamic t then
      (beBytes 32 (hSize + tLen) ++ (encodeHeads hSize rest (tLen + (encTail v).length)).1,
       encTail v ++ (encodeHeads hSize rest (tLen + (encTail v).length)).2)
    else
      (encStatic v ++ (encodeHeads hSize rest tLen).1,
       (encodeHeads hSize rest tLen).2)

/-- Modelled from the spec (section 4.2): ABI encoding of a parameter list,
head section followed by tail section, in declaration order. -/
def encodeParams (ps : List (AbiType × AbiValue)) : List Nat :=
  (encodeHeads (32 * ps.length) ps 0).1 ++ (encodeHeads (32 * ps.length) ps 0).2

/-- Read the 32-byte word at byte position `pos`, failing when it would run
past the end of the buffer. -/
def readWord (data : List Nat) (pos : Nat) : Option Nat :=
  if pos + 32 ≤ data.length then some (beVal ((data.drop pos).take 32)) else none

/-- Modelled from the spec (section 4.4): follow a dynamic head word at `pos`
into the tail section and read a length-prefixed content slice, failing when
the offset or the content runs outside the buffer. -/
def decodeDyn (data : List Nat) (pos : Nat) : Option (List Nat) :=
  match readWord data pos with
  | none => none
  | some off =>
    match readWord data off with
    | none => none
    | some len =>
      if off + 32 + len ≤ data.length then some ((data.drop (off + 32)).take len)
      else none

/-- Modelled from the spec (section 4.4): decode one parameter whose head word
sits at byte position `pos`. -/
def decodeParam (data : List Nat) (pos : Nat) : AbiType → Option AbiValue
  | .uint256 => (readWord data pos).map AbiValue.uint
  | .address => (readWord data pos).map (fun w => AbiValue.addr (w % 2 ^ 160))
  | .bool => (readWord data pos).map (fun w => AbiValue.boolean (decide (w ≠ 0)))
  | .string => (decodeDyn data pos).map AbiValue.str
  | .bytes => (decodeDyn data pos).map AbiValue.bytesV

/-- Modelled from the spec (section 4.4): decode the parameters left to right,
consuming one head word per parameter starting at byte position `pos`. -/
def decodeSeq : List AbiType → List Nat → Nat → Option (List AbiValue)
  | [], _, _ => some []
  | t :: rest, data, pos =>
    match decodeParam data pos t, decodeSeq rest data (pos + 32) with
    | some v, some vs => some (v :: vs)
    | _, _ => none

/-- Modelled from the spec (section 4.4): decode a parameter list from the
start of a buffer. -/
def decodeParams (ts : List AbiType) (data : List Nat) : Option (List AbiValue) :=
  decodeSeq ts data 0

/-- Modelled from the spec (section 3): mutability markers of a function
descriptor. -/
inductive StateMutability where
  | pure
  | view
  | nonpayable
  | payable
deriving DecidableEq

/-- Modelled from the spec (section 3): a function descriptor of the ABI. -/
structure FunctionDescriptor where
  name : String
  stateMutability : StateMutability
  inputs : List AbiType
  outputs : List AbiType
deriving DecidableEq

/-- Modelled from the spec (section 3): an entry of the ABI descriptor set. -/
inductive AbiItem where
  | func (f : FunctionDescriptor)
  | errDescr (name : String) (inputs : List AbiType)
  | eventDescr (name : String) (inputs : List AbiType)
deriving DecidableEq

/-- Canonical signature string: name plus parenthesized comma-joined canonical
input types, no spaces (spec section 4.2). -/
def signatureOf (name : String) (inputs : List AbiType) : String :=
  name ++ "(" ++ String.intercalate "," (inputs.map abiTypeName) ++ ")"

/-- Modelled from the spec (section 4.2): the cryptographic hash of a
signature string (Keccak-256 in the real implementation, which lives outside
the provided source tree) is modelled abstractly by a deterministic 32-byte
digest; no claim depends on the concrete digest values, only on the first four
digest bytes being used as the selector. -/
def hashDigest (s : String) : List Nat :=
  beBytes 32
    (s.toList.foldl (fun acc c => (acc * 2305843009213693951 + c.toNat + 7) % 2 ^ 256)
      99194853094755497)

/-- The 4-byte selector of a canonical signature string (glossary). -/
def selectorOfSig (s : String) : List Nat := (hashDigest s).take 4

/-- The 4-byte selector of a function descriptor. -/
def selectorOf (f : FunctionDescriptor) : List Nat :=
  selectorOfSig (signatureOf f.name f.inputs)

/-- Modelled from the spec (section 7): the error taxonomy of the ABI
pipeline stages. -/
inductive AbiError where
  | functionNotFound
  | overloadAmbiguous
  | encodingError
  | decodingError
deriving DecidableEq

/-- The function descriptors of the ABI bearing the given name. -/
def functionsNamed (abi : List AbiItem) (name : String) : List FunctionDescriptor :=
  abi.filterMap (fun item =>
    match item with
    | .func f => if f.name = name then some f else none
    | _ => none)

/-- Modelled from the spec (sections 4.1, 4.2): the argument tuple matches the
declared input shape — same length and per-position type conformance. -/
def argsCompatible (inputs : List AbiType) (args : List AbiValue) : Bool :=
  inputs.length == args.length && (inputs.zip args).all (fun p => hasType p.2 p.1)

/-- Modelled from the spec (section 4.1): the Signature Resolver.  Filters the
descriptors by name (`AbiFunctionNotFoundError` when none matches); a unique
name match is selected directly; among overloads the first structurally
compatible descriptor is picked, and `AbiFunctionOverloadAmbiguousError` is
raised when no further disambiguation is possible. -/
def resolve (abi : List AbiItem) (name : String) (args : List AbiValue) :
    Except AbiError FunctionDescriptor :=
  match functionsNamed abi name with
  | [] => .error .functionNotFound
  | [f] => .ok f
  | f :: g :: rest =>
    match (f :: g :: rest).filter (fun d => argsCompatible d.inputs args) with
    | c :: _ => .ok c
    | [] => .error .overloadAmbiguous

/-- Modelled from the spec (section 4.2): the Calldata Encoder.  Concatenates
the 4-byte selector with the head/tail encoding of the arguments, failing with
`AbiEncodingError` when an argument's shape or type does not match its
declared ABI type. -/
def encode (f : FunctionDescriptor) (args : List AbiValue) :
    Except AbiError (List Nat) :=
  if argsCompatible f.inputs args then
    .ok (selectorOf f ++ encodeParams (f.inputs.zip args))
  else .error .encodingError

/-- `encodeFunctionData` as consumed by the source: resolve the descriptor,
then encode the calldata (spec sections 4.1 and 4.2). -/
def encodeFunctionData (abi : List AbiItem) (name : String) (args : List AbiValue) :
    Except AbiError (List Nat) :=
  match resolve abi name args with
  | .error e => .error e
  | .ok f => encode f args

/-- Modelled from the spec (section 4.4): a decoded result is the empty
result, a single unwrapped value, or an ordered tuple of values. -/
inductive DecodedResult where
  | unit
  | single (v : AbiValue)
  | tuple (vs : List AbiValue)
deriving DecidableEq

/-- Modelled from the spec (section 4.4): a single output is returned
unwrapped, otherwise an ordered structure of values in output order. -/
def wrapResult : List AbiValue → DecodedResult
  | [] => .unit
  | [v] => .single v
  | vs => .tuple vs

/-- Modelled from the spec (section 4.4): the Result Decoder.  Empty raw bytes
succeed only against an empty output list; otherwise the outputs are decoded
left to right, failing with `AbiDecodingError` when the buffer is too short or
a dynamic offset points outside it. -/
def decode (f : FunctionDescriptor) (raw : List Nat) : Except AbiError DecodedResult :=
  if raw.isEmpty then
    if f.outputs.isEmpty then .ok .unit else .error .decodingError
  else
    match decodeParams f.outputs raw with
    | some vs => .ok (wrapResult vs)
    | none => .error .decodingError

/-- `decodeFunctionResult` as consumed by the source: resolve the descriptor
from the ABI, function name and arguments, then decode the raw response
against its outputs. -/
def decodeFunctionResult (abi : List AbiItem) (name : String) (args : List AbiValue)
    (raw : List Nat) : Except AbiError DecodedResult :=
  match resolve abi name args with
  | .error e => .error e
  | .ok f => decode f raw

/-- Modelled from the spec (section 4.3): a transport/execution failure raised
by the Call Executor, carrying the raw failure payload (possibly ABI-encoded
revert data) and a human-readable message. -/
structure CallError where
  payload : Option (List Nat)
  message : String
deriving DecidableEq

/-- The low-level cause handed to the Error Translator: either a Call Executor
failure or a decoding failure raised on a successful call's response. -/
inductive InnerError where
  | callFailure (e : CallError)
  | decodeFailure (e : AbiError)
deriving DecidableEq

/-- Modelled from the spec (section 4.5): the decoded revert reason carried by
the translated error. -/
inductive RevertReason where
  | errorString (s : List Nat)
  | panicCode (n : Nat)
  | customError (name : String) (args : List AbiValue)
  | executionReverted
  | noRevertPayload
deriving DecidableEq

/-- Selector of the builtin `Error(string)` revert signature. -/
def errorStringSelector : List Nat := selectorOfSig "Error(string)"

/-- Selector of the builtin `Panic(uint256)` revert signature. -/
def panicSelector : List Nat := selectorOfSig "Panic(uint256)"

/-- The custom error descriptors of the ABI. -/
def errorsIn (abi : List AbiItem) : List (String × List AbiType) :=
  abi.filterMap (fun item =>
    match item with
    | .errDescr n ins => some (n, ins)
    | _ => none)

/-- Modelled from the spec (section 4.5): standard revert-reason decoding.
The builtin `Error(string)` and `Panic(uint256)` selectors are recognized
first; otherwise the payload's leading selector is matched against the custom
error descriptors of the ABI; an unrecognized or undecodable payload yields
the generic execution-reverted indicator. -/
def decodeRevertReason (abi : List AbiItem) (payload : List Nat) : RevertReason :=
  if payload.take 4 = errorStringSelector then
    match decodeParams [.string] (payload.drop 4) with
    | some [AbiValue.str s] => .errorString s
    | _ => .executionReverted
  else if payload.take 4 = panicSelector then
    match decodeParams [.uint256] (payload.drop 4) with
    | some [AbiValue.uint n] => .panicCode n
    | _ => .executionReverted
  else
    match (errorsIn abi).filter
        (fun e => decide (selectorOfSig (signatureOf e.1 e.2) = payload.take 4)) with
    | e :: _ =>
      match decodeParams e.2 (payload.drop 4) with
      | some vs => .customError e.1 vs
      | none => .executionReverted
    | [] => .executionReverted

/-- Modelled from the spec (section 4.5): the translated error value, carrying
the original low-level error (cause chain), the target address, the function
name, the arguments, and the decoded revert reason when available. -/
structure ContractError where
  cause : InnerError
  address : Nat
  functionName : String
  args : List AbiValue
  reason : RevertReason
deriving DecidableEq

/-- Modelled from the spec (section 4.5): the Error Translator
(`getContractError` in the source).  Always wraps the original error with the
invocation context; when the failure carries a raw byte payload the standard
revert-reason decoding is attempted. -/
def getContractError (cause : InnerError) (abi : List AbiItem) (address : Nat)
    (functionName : String) (args : List AbiValue) : ContractError :=
  { cause := cause
    address := address
    functionName := functionName
    args := args
    reason :=
      match cause with
      | .callFailure e =>
        match e.payload with
        | some bs => decodeRevertReason abi bs
        | none => .noRevertPayload
      | .decodeFailure _ => .noRevertPayload }

/-- The error surface of the top-level operation: encoding/resolution errors
escape unwrapped (they are raised before the `try` block of the source);
everything raised after the call is issued arrives wrapped as a
`ContractError`. -/
inductive ReadError where
  | encoding (e : AbiError)
  | contract (e : ContractError)
deriving DecidableEq

/-- The top-level operation, embedded from `readContract` in
`src/actions/public/readContract.ts` (lines 100–127): encode the calldata,
issue the call (the Call Executor `exec` abstracts the `call` action), decode
the response (an absent response is replaced by empty bytes, `data || '0x'`),
and wrap any error raised after encoding with `getContractError`. -/
def readContract (abi : List AbiItem) (address : Nat) (functionName : String)
    (args : List AbiValue)
    (exec : Nat → List Nat → Except CallError (Option (List Nat))) :
    Except ReadError DecodedResult :=
  match encodeFunctionData abi functionName args with
  | .error e => .error (.encoding e)
  | .ok calldata =>
    match exec address calldata with
    | .error failure =>
      .error (.contract (getContractError (.callFailure failure) abi address functionName args))
    | .ok dataOpt =>
      match decodeFunctionResult abi functionName args (dataOpt.getD []) with
      | .error e =>
        .error (.contract (getContractError (.decodeFailure e) abi address functionName args))
      | .ok r => .ok r

/-! ## Arithmetic and list lemmas about the byte-level encoding -/

theorem beBytes_length (w : Nat) : ∀ n, (beBytes w n).length = w := by
  induction w with
  | zero => intro n; rfl
  | succ w ih => intro n; simp [beBytes, ih]

theorem take_append_self (a b : List Nat) : (a ++ b).take a.length = a := by
  simp

theorem drop_append_self (a b : List Nat) : (a ++ b).drop a.length = b := by
  simp

theorem beVal_append_single (xs : List Nat) (b : Nat) :
    beVal (xs ++ [b]) = beVal xs * 256 + b := by
  simp [beVal, List.foldl_append]

theorem beVal_beBytes (w : Nat) : ∀ n, beVal (beBytes w n) = n % 2 ^ (8 * w) := by
  induction w with
  | zero => intro n; simp [beBytes, beVal, Nat.mod_one]
  | succ w ih =>
    intro n
    rw [beBytes, beVal_append_single, ih]
    have h256 : 2 ^ (8 * (w + 1)) = 256 * 2 ^ (8 * w) := by
      rw [show 8 * (w + 1) = 8 + 8 * w by ring, pow_add]
      norm_num
    rw [h256, Nat.mod_mul]
    ring

theorem beVal_beBytes32 (n : Nat) : beVal (beBytes 32 n) = n % 2 ^ 256 := by
  have := beVal_beBytes 32 n
  norm_num at this
  exact this

theorem beVal_beBytes32_of_lt (n : Nat) (h : n < 2 ^ 256) :
    beVal (beBytes 32 n) = n := by
  rw [beVal_beBytes32, Nat.mod_eq_of_lt h]

/-- Reading a word that sits at `pos` in the buffer recovers its value. -/
theorem readWord_at (data w rest : List Nat) (pos : Nat)
    (hd : data.drop pos = w ++ rest) (hw : w.length = 32) :
    readWord data pos = some (beVal w) := by
  have hlen : data.length - pos = 32 + rest.length := by
    have h := congrArg List.length hd
    simpa [hw] using h
  have hle : pos + 32 ≤ data.length := by omega
  unfold readWord
  rw [if_pos hle, hd, ← hw, take_append_self]

theorem encStatic_length (v : AbiValue) : (encStatic v).length = 32 := by
  cases v <;> simp [encStatic, beBytes_length]

theorem encodeHeads_fst_length (hSize : Nat) (ps : List (AbiType × AbiValue)) :
    ∀ tLen, (encodeHeads hSize ps tLen).1.length = 32 * ps.length := by
  induction ps with
  | nil => intro tLen; simp [encodeHeads]
  | cons p rest ih =>
    intro tLen
    obtain ⟨t, v⟩ := p
    by_cases hdyn : isDynamic t = true
    · simp only [encodeHeads, if_pos hdyn, List.length_append, List.length_cons,
        beBytes_length, ih]
      ring
    · simp only [encodeHeads, if_neg hdyn, List.length_append, List.length_cons,
        encStatic_length, ih]
      ring

/-- Dropping a 32-byte word from the front of a buffer. -/
theorem drop_word (w X : List Nat) (hw : w.length = 32) : (w ++ X).drop 32 = X := by
  rw [← hw, drop_append_self]

/-- Decoding a static parameter whose in-place encoding sits at `pos` in the
buffer recovers the original value. -/
theorem decodeParam_encStatic (t : AbiType) (v : AbiValue) (data r : List Nat) (pos : Nat)
    (ht : hasType v t = true) (hdyn : isDynamic t = false)
    (hd : data.drop pos = encStatic v ++ r) :
    decodeParam data pos t = some v := by
  cases t <;> cases v <;> simp [hasType] at ht <;>
    first
    | exact absurd hdyn (by decide)
    | skip
  case uint256.uint n =>
    have hr := readWord_at data (beBytes 32 n) r pos hd (beBytes_length 32 n)
    simp [decodeParam, hr, beVal_beBytes32_of_lt n ht]
  case address.addr a =>
    have ha : a < 2 ^ 256 := lt_trans ht (by norm_num)
    have hr := readWord_at data (beBytes 32 a) r pos hd (beBytes_length 32 a)
    simp [decodeParam, hr, beVal_beBytes32_of_lt a ha, Nat.mod_eq_of_lt ht]
  case bool.boolean b =>
    have hr := readWord_at data (beBytes 32 (if b then 1 else 0)) r pos hd
      (beBytes_length 32 _)
    cases b
    · have h0 : beVal (beBytes 32 0) = 0 := beVal_beBytes32_of_lt 0 (by norm_num)
      simp [decodeParam, hr, h0]
    · have h1 : beVal (beBytes 32 1) = 1 := beVal_beBytes32_of_lt 1 (by norm_num)
      simp [decodeParam, hr, h1]

/-- Following a dynamic head word at `pos` into a well-formed length-prefixed
tail at offset `off` recovers the content. -/
theorem decodeDyn_at (data r s content : List Nat) (pos off : Nat)
    (hd : data.drop pos = beBytes 32 off ++ r)
    (htl : data.drop off = beBytes 32 content.length ++
      (content ++ (List.replicate (padLen content.length) 0 ++ s)))
    (hoff : off + (32 + content.length + padLen content.length) ≤ data.length)
    (hD : data.length ≤ 2 ^ 256) :
    decodeDyn data pos = some content := by
  have hofflt : off < 2 ^ 256 := by omega
  have hlenlt : content.length < 2 ^ 256 := by omega
  have hro : readWord data pos = some off := by
    have h := readWord_at data (beBytes 32 off) r pos hd (beBytes_length 32 off)
    rwa [beVal_beBytes32_of_lt off hofflt] at h
  have hrl : readWord data off = some content.length := by
    have h := readWord_at data (beBytes 32 content.length) _ off htl
      (beBytes_length 32 _)
    rwa [beVal_beBytes32_of_lt _ hlenlt] at h
  have hbound : off + 32 + content.length ≤ data.length := by omega
  have hsplit : data.drop (off + 32) = (data.drop off).drop 32 := by
    rw [List.drop_drop]
  have hcontent : (data.drop (off + 32)).take content.length = content := by
    rw [hsplit, htl, drop_word _ _ (beBytes_length 32 _), take_append_self]
  simp [decodeDyn, hro, hrl, hbound, hcontent]

/-- Decoding a dynamic parameter whose head word at `pos` holds the offset
`off` of its tail encoding recovers the original value. -/
theorem decodeParam_encTail (t : AbiType) (v : AbiValue) (data r s : List Nat)
    (pos off : Nat)
    (ht : hasType v t = true) (hdyn : isDynamic t = true)
    (hd : data.drop pos = beBytes 32 off ++ r)
    (htl : data.drop off = encTail v ++ s)
    (hoff : off + (encTail v).length ≤ data.length)
    (hD : data.length ≤ 2 ^ 256) :
    decodeParam data pos t = some v := by
  cases t <;> cases v <;> simp [hasType] at ht <;>
    first
    | exact absurd hdyn (by decide)
    | skip
  case string.str content =>
    have htl2 : data.drop off = beBytes 32 content.length ++
        (content ++ (List.replicate (padLen content.length) 0 ++ s)) := by
      rw [htl]; simp [encTail]
    have hoff2 : off + (32 + content.length + padLen content.length) ≤ data.length := by
      have hlen : (encTail (AbiValue.str content)).length =
          32 + content.length + padLen content.length := by
        simp [encTail, beBytes_length]
        omega
      omega
    have h := decodeDyn_at data r _ content pos off hd htl2 hoff2 hD
    simp [decodeParam, h]
  case bytes.bytesV content =>
    have htl2 : data.drop off = beBytes 32 content.length ++
        (content ++ (List.replicate (padLen content.length) 0 ++ s)) := by
      rw [htl]; simp [encTail]
    have hoff2 : off + (32 + content.length + padLen content.length) ≤ data.length := by
      have hlen : (encTail (AbiValue.bytesV content)).length =
          32 + content.length + padLen content.length := by
        simp [encTail, beBytes_length]
        omega
      omega
    have h := decodeDyn_at data r _ content pos off hd htl2 hoff2 hD
    simp [decodeParam, h]

/-- Main round-trip induction: decoding the head words left to right from a
buffer that contains the emitted head section at `pos` and the emitted tail
section at `hSize + tLen` recovers the original values. -/
theorem decodeSeq_encodeHeads (ps : List (AbiType × AbiValue)) :
    ∀ (hSize tLen pos : Nat) (D r s : List Nat),
    (∀ p ∈ ps, hasType p.2 p.1 = true) →
    D.length ≤ 2 ^ 256 →
    D.drop pos = (encodeHeads hSize ps tLen).1 ++ r →
    D.drop (hSize + tLen) = (encodeHeads hSize ps tLen).2 ++ s →
    hSize + tLen + (encodeHeads hSize ps tLen).2.length ≤ D.length →
    decodeSeq (ps.map Prod.fst) D pos = some (ps.map Prod.snd) := by
  induction ps with
  | nil => intro hSize tLen pos D r s _ _ _ _ _; rfl
  | cons p rest ih =>
    obtain ⟨t, v⟩ := p
    intro hSize tLen pos D r s hwt hD hheads htails hbound
    have hwtv : hasType v t = true := hwt (t, v) (List.mem_cons_self _ _)
    have hwtr : ∀ q ∈ rest, hasType q.2 q.1 = true :=
      fun q hq => hwt q (List.mem_cons_of_mem _ hq)
    by_cases hdyn : isDynamic t = true
    · -- dynamic head: offset word, tail emitted at hSize + tLen
      simp only [encodeHeads, if_pos hdyn] at hheads htails hbound
      rw [List.append_assoc] at hheads htails
      have htail_le : (encTail v).length +
          (encodeHeads hSize rest (tLen + (encTail v).length)).2.length =
          (encTail v ++ (encodeHeads hSize rest (tLen + (encTail v).length)).2).length := by
        simp
      have hbound2 : hSize + tLen + (encTail v).length +
          (encodeHeads hSize rest (tLen + (encTail v).length)).2.length ≤ D.length := by
        simp at hbound
        omega
      have hparam : decodeParam D pos t = some v := by
        refine decodeParam_encTail t v D _ _ pos (hSize + tLen) hwtv hdyn hheads htails ?_ hD
        have h := congrArg List.length htails
        simp at h
        omega
      have hheads2 : D.drop (pos + 32) =
          (encodeHeads hSize rest (tLen + (encTail v).length)).1 ++ r := by
        have hsplit : D.drop (pos + 32) = (D.drop pos).drop 32 := by
          rw [List.drop_drop]
        rw [hsplit, hheads, drop_word _ _ (beBytes_length 32 _)]
      have htails2 : D.drop (hSize + (tLen + (encTail v).length)) =
          (encodeHeads hSize rest (tLen + (encTail v).length)).2 ++ s := by
        have hsplit : D.drop (hSize + (tLen + (encTail v).length)) =
            (D.drop (hSize + tLen)).drop (encTail v).length := by
          rw [List.drop_drop]
          congr 1
          ring
        rw [hsplit, htails, drop_append_self]
      have hrec := ih hSize (tLen + (encTail v).length) (pos + 32) D r s hwtr hD
        hheads2 htails2 (by omega)
      simp only [List.map_cons, decodeSeq, hparam, hrec]
    · -- static head: value encoded in place
      have hdynf : isDynamic t = false := by
        cases h : isDynamic t
        · rfl
        · exact absurd h hdyn
      simp only [encodeHeads, if_neg hdyn] at hheads htails hbound
      rw [List.append_assoc] at hheads
      have hparam : decodeParam D pos t = some v :=
        decodeParam_encStatic t v D _ pos hwtv hdynf hheads
      have hheads2 : D.drop (pos + 32) = (encodeHeads hSize rest tLen).1 ++ r := by
        have hsplit : D.drop (pos + 32) = (D.drop pos).drop 32 := by
          rw [List.drop_drop]
        rw [hsplit, hheads, drop_word _ _ (encStatic_length v)]
      have hrec := ih hSize tLen (pos + 32) D r s hwtr hD hheads2 htails hbound
      simp only [List.map_cons, decodeSeq, hparam, hrec]

/-- Round-trip at the parameter-encoding level: decoding the types of a
well-typed parameter list from its own encoding recovers the values. -/
theorem decodeParams_encodeParams (ps : List (AbiType × AbiValue))
    (hwt : ∀ p ∈ ps, hasType p.2 p.1 = true)
    (hb : (encodeParams ps).length ≤ 2 ^ 256) :
    decodeParams (ps.map Prod.fst) (encodeParams ps) = some (ps.map Prod.snd) := by
  have hlen := encodeHeads_fst_length (32 * ps.length) ps 0
  refine decodeSeq_encodeHeads ps (32 * ps.length) 0 0 (encodeParams ps)
    (encodeHeads (32 * ps.length) ps 0).2 [] hwt hb ?_ ?_ ?_
  · simp [encodeParams]
  · rw [Nat.add_zero]
    simp only [encodeParams]
    rw [List.append_nil]
    nth_rewrite 1 [← hlen]
    rw [drop_append_self]
  · simp only [encodeParams, List.length_append]
    omega

/-! ## Inversion lemmas for the encoder -/

theorem argsCompatible_iff (inputs : List AbiType) (args : List AbiValue) :
    argsCompatible inputs args = true ↔
      inputs.length = args.length ∧ ∀ p ∈ inputs.zip args, hasType p.2 p.1 = true := by
  simp [argsCompatible, List.all_eq_true]

theorem encode_ok_iff (f : FunctionDescriptor) (args : List AbiValue) (cd : List Nat) :
    encode f args = .ok cd ↔
      argsCompatible f.inputs args = true ∧
        cd = selectorOf f ++ encodeParams (f.inputs.zip args) := by
  constructor
  · intro h
    unfold encode at h
    split at h
    · exact ⟨by assumption, (Except.ok.inj h).symm⟩
    · exact absurd h (by simp)
  · rintro ⟨h1, h2⟩
    unfold encode
    rw [if_pos h1, h2]

theorem selectorOf_length (f : FunctionDescriptor) : (selectorOf f).length = 4 := by
  simp [selectorOf, selectorOfSig, hashDigest, beBytes_length]

/-! ## Control-flow lemmas for the top-level operation -/

theorem readContract_enc_error (abi : List AbiItem) (addr : Nat) (name : String)
    (args : List AbiValue)
    (exec : Nat → List Nat → Except CallError (Option (List Nat))) (e : AbiError)
    (h : encodeFunctionData abi name args = .error e) :
    readContract abi addr name args exec = .error (.encoding e) := by
  unfold readContract
  simp only [h]

theorem readContract_call_error (abi : List AbiItem) (addr : Nat) (name : String)
    (args : List AbiValue)
    (exec : Nat → List Nat → Except CallError (Option (List Nat)))
    (cd : List Nat) (failure : CallError)
    (h : encodeFunctionData abi name args = .ok cd)
    (hx : exec addr cd = .error failure) :
    readContract abi addr name args exec =
      .error (.contract (getContractError (.callFailure failure) abi addr name args)) := by
  unfold readContract
  simp only [h, hx]

theorem readContract_call_ok (abi : List AbiItem) (addr : Nat) (name : String)
    (args : List AbiValue)
    (exec : Nat → List Nat → Except CallError (Option (List Nat)))
    (cd : List Nat) (dataOpt : Option (List Nat))
    (h : encodeFunctionData abi name args = .ok cd)
    (hx : exec addr cd = .ok dataOpt) :
    readContract abi addr name args exec =
      match decodeFunctionResult abi name args (dataOpt.getD []) with
      | .error e =>
        .error (.contract (getContractError (.decodeFailure e) abi addr name args))
      | .ok r => .ok r := by
  unfold readContract
  simp only [h, hx]

/-! ## Concrete fixtures used by the claims -/

/-- The `balanceOf(address) view returns (uint256)` descriptor of the spec's
end-to-end scenario. -/
def balanceOfFn : FunctionDescriptor :=
  { name := "balanceOf", stateMutability := .view, inputs := [.address],
    outputs := [.uint256] }

/-- The one-function ABI of the spec's end-to-end scenario. -/
def balanceOfAbi : List AbiItem := [.func balanceOfFn]

/-- A one-input view function used to probe the round-trip property. -/
def cexDesc : FunctionDescriptor :=
  { name := "bal", stateMutability := .view, inputs := [.address],
    outputs := [.uint256] }

/-- `cexDesc` with its outputs replaced by its inputs, as the round-trip
property prescribes. -/
def cexDescOut : FunctionDescriptor := { cexDesc with outputs := cexDesc.inputs }

/-- The calldata the encoder produces for `cexDesc` applied to address 5. -/
def cexCd : List Nat := selectorOf cexDesc ++ beBytes 32 5

/-! ## Claims -/

set_option maxRecDepth 100000 in
set_option maxHeartbeats 1000000 in
/-- C2 (counterexample): the round-trip as literally stated fails — the
encoder's output starts with the 4-byte selector, so decoding it against a
descriptor whose outputs equal the inputs misaligns every word: for the
one-input descriptor `cexDesc` and argument tuple `[addr 5]`, the decoder
returns `addr 0`, not the original `addr 5`. -/
theorem c2_roundtrip_cex :
    encode cexDesc [AbiValue.addr 5] = Except.ok cexCd ∧
    decode cexDescOut cexCd = Except.ok (DecodedResult.single (AbiValue.addr 0)) ∧
    decode cexDescOut cexCd ≠ Except.ok (wrapResult [AbiValue.addr 5]) := by
  refine ⟨by decide, by decide, by decide⟩

set_option maxHeartbeats 1000000 in
/-- C2 (amended): for every FunctionDescriptor and argument tuple matching its
input shape (which is exactly what `encode f args = .ok cd` expresses),
decoding the encoder's output with the 4-byte selector stripped, against a
descriptor whose outputs equal the original inputs, yields the original
argument tuple (wrapped per the decoder's single/tuple convention), provided
the encoding fits in the 2^256-byte range addressable by a word-sized offset. -/
theorem c2_roundtrip_selector_stripped (f : FunctionDescriptor)
    (args : List AbiValue) (cd : List Nat)
    (henc : encode f args = .ok cd) (hlen : cd.length ≤ 2 ^ 256) :
    decode { f with outputs := f.inputs } (cd.drop 4) = .ok (wrapResult args) := by
  obtain ⟨hcompat, hcd⟩ := (encode_ok_iff f args cd).mp henc
  obtain ⟨hlen_eq, hall⟩ := (argsCompatible_iff _ _).mp hcompat
  rw [hcd] at hlen ⊢
  have hdrop : (selectorOf f ++ encodeParams (f.inputs.zip args)).drop 4 =
      encodeParams (f.inputs.zip args) := by
    rw [← selectorOf_length f, drop_append_self]
  rw [hdrop]
  have hfst : (f.inputs.zip args).map Prod.fst = f.inputs :=
    List.map_fst_zip _ _ (le_of_eq hlen_eq)
  have hsnd : (f.inputs.zip args).map Prod.snd = args :=
    List.map_snd_zip _ _ (le_of_eq hlen_eq.symm)
  have hziplen : (f.inputs.zip args).length = f.inputs.length := by
    simp [List.length_zip, hlen_eq]
  by_cases hi : f.inputs = []
  · have hargs : args = [] := by
      rw [hi] at hlen_eq
      exact List.eq_nil_of_length_eq_zero hlen_eq.symm
    rw [hi, hargs]
    simp [decode, encodeParams, encodeHeads, wrapResult]
  · have hpos : 0 < f.inputs.length := List.length_pos.mpr hi
    have hbE : (encodeParams (f.inputs.zip args)).length ≤ 2 ^ 256 := by
      have h4 := selectorOf_length f
      simp only [List.length_append] at hlen
      omega
    have hElen : 32 * (f.inputs.zip args).length ≤
        (encodeParams (f.inputs.zip args)).length := by
      have h1 := encodeHeads_fst_length (32 * (f.inputs.zip args).length)
        (f.inputs.zip args) 0
      simp only [encodeParams, List.length_append]
      omega
    have hEne : (encodeParams (f.inputs.zip args)).isEmpty = false := by
      have hElen2 : 32 ≤ (encodeParams (f.inputs.zip args)).length := by
        rw [hziplen] at hElen
        omega
      cases hEmp : encodeParams (f.inputs.zip args) with
      | nil => rw [hEmp] at hElen2; simp at hElen2
      | cons b bs => rfl
    have hdec := decodeParams_encodeParams (f.inputs.zip args) hall hbE
    rw [hfst, hsnd] at hdec
    unfold decode
    rw [if_neg (by simp [hEne])]
    have houts : ({ f with outputs := f.inputs } : FunctionDescriptor).outputs
        = f.inputs := rfl
    rw [houts, hdec]

set_option maxRecDepth 100000 in
set_option maxHeartbeats 1000000 in
/-- C2 (witness): the amended round-trip applied to `cexDesc` and the address
argument 5, whose hypotheses hold by evaluation. -/
theorem c2_roundtrip_witness :
    decode { cexDesc with outputs := cexDesc.inputs } (cexCd.drop 4)
      = .ok (wrapResult [AbiValue.addr 5]) :=
  c2_roundtrip_selector_stripped cexDesc [AbiValue.addr 5] cexCd (by decide) (by decide)

set_option maxRecDepth 100000 in
set_option maxHeartbeats 1000000 in
/-- C1: for the one-function `balanceOf(address) view returns (uint256)` ABI,
the top-level read operation produces calldata that is exactly the 4-byte
selector of `"balanceOf(address)"` followed by the 32-byte left-padded address
word, and with a Call Executor returning the 32-byte big-endian encoding of
424122 it returns the integer 424122. -/
theorem c1_read_balanceOf (a : Nat) (h : a < 2 ^ 160) :
    encodeFunctionData balanceOfAbi "balanceOf" [AbiValue.addr a]
      = Except.ok (selectorOfSig "balanceOf(address)" ++ beBytes 32 a) ∧
    readContract balanceOfAbi 777 "balanceOf" [AbiValue.addr a]
      (fun _ _ => Except.ok (some (beBytes 32 424122)))
      = Except.ok (DecodedResult.single (AbiValue.uint 424122)) := by
  have hres : resolve balanceOfAbi "balanceOf" [AbiValue.addr a]
      = Except.ok balanceOfFn := rfl
  have hcompat : argsCompatible balanceOfFn.inputs [AbiValue.addr a] = true := by
    have h2 : (2 : Nat) ^ 160 = 1461501637330902918203684832716283019655932542976 := by
      norm_num
    rw [h2] at h
    simp [argsCompatible, balanceOfFn, hasType]
    exact h
  have hsel : selectorOf balanceOfFn = selectorOfSig "balanceOf(address)" := rfl
  have hparams : encodeParams (balanceOfFn.inputs.zip [AbiValue.addr a])
      = beBytes 32 a := by
    simp [balanceOfFn, encodeParams, encodeHeads, isDynamic, encStatic]
  have henc : encodeFunctionData balanceOfAbi "balanceOf" [AbiValue.addr a]
      = Except.ok (selectorOfSig "balanceOf(address)" ++ beBytes 32 a) := by
    unfold encodeFunctionData
    rw [hres]
    show encode balanceOfFn [AbiValue.addr a] = _
    unfold encode
    rw [if_pos hcompat, hsel, hparams]
  have hdec : decodeFunctionResult balanceOfAbi "balanceOf" [AbiValue.addr a]
      ((some (beBytes 32 424122)).getD [])
      = Except.ok (DecodedResult.single (AbiValue.uint 424122)) := by
    unfold decodeFunctionResult
    rw [hres]
    show decode balanceOfFn ((some (beBytes 32 424122)).getD []) = _
    decide
  refine ⟨henc, ?_⟩
  rw [readContract_call_ok balanceOfAbi 777 "balanceOf" [AbiValue.addr a]
    (fun _ _ => Except.ok (some (beBytes 32 424122))) _ (some (beBytes 32 424122))
    henc rfl]
  rw [hdec]

set_option maxRecDepth 100000 in
set_option maxHeartbeats 1000000 in
/-- C1 (witness): the end-to-end scenario at the concrete address 3735928559. -/
theorem c1_read_balanceOf_witness :
    encodeFunctionData balanceOfAbi "balanceOf" [AbiValue.addr 3735928559]
      = Except.ok (selectorOfSig "balanceOf(address)" ++ beBytes 32 3735928559) ∧
    readContract balanceOfAbi 777 "balanceOf" [AbiValue.addr 3735928559]
      (fun _ _ => Except.ok (some (beBytes 32 424122)))
      = Except.ok (DecodedResult.single (AbiValue.uint 424122)) :=
  c1_read_balanceOf 3735928559 (by decide)

/-- The byte content of the string `"insufficient balance"`. -/
def insufficientBalanceMsg : List Nat := "insufficient balance".toList.map Char.toNat

/-- The ABI-encoded bytes of `Error(string)` with message
`"insufficient balance"`: the builtin selector followed by the encoded string
parameter. -/
def errorStringPayload : List Nat :=
  errorStringSelector ++ encodeParams [(AbiType.string, AbiValue.str insufficientBalanceMsg)]

set_option maxRecDepth 100000 in
set_option maxHeartbeats 1000000 in
/-- C3: the Error Translator's output always carries the original low-level
error as its cause, the target address, the function name and the arguments;
and for a failure carrying the ABI-encoded bytes of `Error(string)` with
message `"insufficient balance"`, the decoded reason is exactly that string,
whatever the ABI, address, name and arguments of the context are. -/
theorem c3_error_translation :
    (∀ (cause : InnerError) (abi : List AbiItem) (addr : Nat) (name : String)
        (args : List AbiValue),
      (getContractError cause abi addr name args).cause = cause ∧
      (getContractError cause abi addr name args).address = addr ∧
      (getContractError cause abi addr name args).functionName = name ∧
      (getContractError cause abi addr name args).args = args) ∧
    (∀ (abi : List AbiItem) (addr : Nat) (name : String) (args : List AbiValue)
        (msg : String),
      (getContractError (.callFailure ⟨some errorStringPayload, msg⟩)
          abi addr name args).reason
        = .errorString insufficientBalanceMsg) := by
  constructor
  · intro cause abi addr name args
    exact ⟨rfl, rfl, rfl, rfl⟩
  · intro abi addr name args msg
    show decodeRevertReason abi errorStringPayload
      = .errorString insufficientBalanceMsg
    unfold decodeRevertReason
    rw [if_pos (by decide)]
    rw [show decodeParams [AbiType.string] (errorStringPayload.drop 4)
      = some [AbiValue.str insufficientBalanceMsg] by decide]

set_option maxRecDepth 100000 in
/-- C4: for an ABI whose functions named `"balanceOf"` are exactly one
descriptor with one input, resolution returns that unique descriptor; and for
every ABI and every function name with no matching function descriptor,
resolution (and hence `encodeFunctionData`) fails with
`AbiFunctionNotFoundError`. -/
theorem c4_resolver_totality :
    (∀ (abi : List AbiItem) (f : FunctionDescriptor) (v : AbiValue),
      functionsNamed abi "balanceOf" = [f] → f.inputs.length = 1 →
      resolve abi "balanceOf" [v] = .ok f) ∧
    (∀ (abi : List AbiItem) (name : String) (args : List AbiValue),
      functionsNamed abi name = [] →
      resolve abi name args = .error .functionNotFound ∧
      encodeFunctionData abi name args = .error .functionNotFound) := by
  constructor
  · intro abi f v h1 _
    unfold resolve
    rw [h1]
  · intro abi name args h
    have hres : resolve abi name args = .error .functionNotFound := by
      unfold resolve
      rw [h]
    refine ⟨hres, ?_⟩
    unfold encodeFunctionData
    rw [hres]

set_option maxRecDepth 100000 in
/-- C4 (witness): resolution of `balanceOf` in the one-function ABI, and
resolution of an absent name. -/
theorem c4_resolver_totality_witness :
    resolve balanceOfAbi "balanceOf" [AbiValue.addr 1] = .ok balanceOfFn ∧
    resolve balanceOfAbi "missing" [] = .error .functionNotFound := by
  constructor
  · exact c4_resolver_totality.1 balanceOfAbi balanceOfFn (AbiValue.addr 1)
      (by decide) (by decide)
  · exact (c4_resolver_totality.2 balanceOfAbi "missing" [] (by decide)).1

/-! ## Short-buffer lemmas for the decoder -/

theorem decodeParam_short (data : List Nat) (pos : Nat) (t : AbiType)
    (h : data.length < pos + 32) : decodeParam data pos t = none := by
  have hr : readWord data pos = none := by
    unfold readWord
    rw [if_neg (by omega)]
  cases t <;> simp [decodeParam, decodeDyn, hr]

theorem decodeSeq_cons (t : AbiType) (ts : List AbiType) (data : List Nat) (pos : Nat) :
    decodeSeq (t :: ts) data pos =
      match decodeParam data pos t, decodeSeq ts data (pos + 32) with
      | some v, some vs => some (v :: vs)
      | _, _ => none := rfl

theorem decodeSeq_short (ts : List AbiType) :
    ∀ (data : List Nat) (pos : Nat), ts ≠ [] →
      data.length < pos + 32 * ts.length → decodeSeq ts data pos = none := by
  induction ts with
  | nil => intro data pos h _; exact absurd rfl h
  | cons t rest ih =>
    intro data pos _ hlen
    cases hr : rest with
    | nil =>
      subst hr
      have hp : decodeParam data pos t = none :=
        decodeParam_short data pos t (by simp at hlen; omega)
      simp [decodeSeq_cons, hp]
    | cons u us =>
      have hrec : decodeSeq rest data (pos + 32) = none := by
        refine ih data (pos + 32) (by rw [hr]; simp) ?_
        simp only [List.length_cons] at hlen
        omega
      rw [hr] at hrec
      rw [decodeSeq_cons, hrec]
      cases hp : decodeParam data pos t <;> rfl

/-! ## Remaining claims -/

/-- C5: the Result Decoder fails with `AbiDecodingError` on every buffer
shorter than the 32 bytes per declared output that the output shape minimally
requires, and a dynamic parameter whose head word holds an offset pointing
outside the buffer fails to decode. -/
theorem c5_decoding_failure :
    (∀ (f : FunctionDescriptor) (raw : List Nat),
      raw.length < 32 * f.outputs.length →
      decode f raw = .error .decodingError) ∧
    (∀ (data : List Nat) (pos : Nat) (t : AbiType) (off : Nat),
      isDynamic t = true → readWord data pos = some off →
      data.length < off + 32 → decodeParam data pos t = none) := by
  constructor
  · intro f raw hshort
    have hne : f.outputs ≠ [] := by
      intro h0
      rw [h0] at hshort
      simp at hshort
    unfold decode
    by_cases hraw : raw.isEmpty = true
    · rw [if_pos hraw]
      have hout : f.outputs.isEmpty = false := by
        cases h2 : f.outputs with
        | nil => exact absurd h2 hne
        | cons x xs => rfl
      rw [hout]
      simp
    · rw [if_neg hraw]
      have hnone : decodeParams f.outputs raw = none :=
        decodeSeq_short f.outputs raw 0 hne (by omega)
      simp only [hnone]
  · intro data pos t off hdyn hro hlen
    have hro2 : readWord data off = none := by
      unfold readWord
      rw [if_neg (by omega)]
    cases t <;>
      first
      | exact absurd hdyn (by decide)
      | simp [decodeParam, decodeDyn, hro, hro2]

set_option maxRecDepth 100000 in
/-- C5 (witness): a 16-byte buffer against a `uint256` output, and a dynamic
offset 64 pointing past a 32-byte buffer. -/
theorem c5_decoding_failure_witness :
    decode balanceOfFn (List.replicate 16 0) = .error .decodingError ∧
    decodeParam (beBytes 32 64) 0 AbiType.string = none := by
  constructor
  · exact c5_decoding_failure.1 balanceOfFn (List.replicate 16 0) (by decide)
  · exact c5_decoding_failure.2 (beBytes 32 64) 0 AbiType.string 64 (by decide)
      (by decide) (by decide)

/-- C6: a Call Executor failure is translated exactly once — the result is the
single error value produced by `getContractError`, whose cause is the original
untranslated failure — no success value is returned, and the outcome depends
on the executor only through its one application to the encoded request (so
the call is never retried). -/
theorem c6_single_translation (abi : List AbiItem) (addr : Nat) (name : String)
    (args : List AbiValue)
    (exec : Nat → List Nat → Except CallError (Option (List Nat)))
    (cd : List Nat) (failure : CallError)
    (henc : encodeFunctionData abi name args = .ok cd)
    (hexec : exec addr cd = .error failure) :
    readContract abi addr name args exec =
      .error (.contract (getContractError (.callFailure failure) abi addr name args)) ∧
    (getContractError (.callFailure failure) abi addr name args).cause
      = .callFailure failure ∧
    ∀ exec2 : Nat → List Nat → Except CallError (Option (List Nat)),
      exec2 addr cd = exec addr cd →
      readContract abi addr name args exec2 = readContract abi addr name args exec := by
  refine ⟨readContract_call_error abi addr name args exec cd failure henc hexec, rfl, ?_⟩
  intro exec2 he
  rw [readContract_call_error abi addr name args exec cd failure henc hexec,
    readContract_call_error abi addr name args exec2 cd failure henc
      (by rw [he, hexec])]

/-- An executor that always fails without a revert payload. -/
def failingExec : Nat → List Nat → Except CallError (Option (List Nat)) :=
  fun _ _ => .error { payload := none, message := "boom" }

set_option maxRecDepth 100000 in
set_option maxHeartbeats 1000000 in
/-- C6 (witness): the failing executor's error arrives translated, wrapping
the original failure. -/
theorem c6_single_translation_witness :
    readContract balanceOfAbi 777 "balanceOf" [AbiValue.addr 1] failingExec =
      .error (.contract (getContractError
        (.callFailure { payload := none, message := "boom" })
        balanceOfAbi 777 "balanceOf" [AbiValue.addr 1])) :=
  (c6_single_translation balanceOfAbi 777 "balanceOf" [AbiValue.addr 1] failingExec
    (selectorOfSig "balanceOf(address)" ++ beBytes 32 1)
    { payload := none, message := "boom" } (by decide) rfl).1

/-- C7: a resolution/encoding error is raised immediately and locally — the
result is the unwrapped encoding-stage error for every executor, so the Call
Executor is never consulted and nothing is retried. -/
theorem c7_local_encoding_errors (abi : List AbiItem) (addr : Nat) (name : String)
    (args : List AbiValue) (e : AbiError)
    (henc : encodeFunctionData abi name args = .error e) :
    ∀ exec : Nat → List Nat → Except CallError (Option (List Nat)),
      readContract abi addr name args exec = .error (.encoding e) :=
  fun exec => readContract_enc_error abi addr name args exec e henc

set_option maxRecDepth 100000 in
/-- C7 (witness): the absent name `"missing"` fails identically under the
failing executor. -/
theorem c7_local_encoding_errors_witness :
    readContract balanceOfAbi 888 "missing" [] failingExec
      = .error (.encoding .functionNotFound) :=
  c7_local_encoding_errors balanceOfAbi 888 "missing" [] .functionNotFound
    (by decide) failingExec

/-- C8: with an empty or absent raw response, the top-level operation succeeds
(with the empty result) exactly when the resolved descriptor's outputs are
empty; with declared outputs it fails with the translated `AbiDecodingError`. -/
theorem c8_empty_response (abi : List AbiItem) (addr : Nat) (name : String)
    (args : List AbiValue)
    (exec : Nat → List Nat → Except CallError (Option (List Nat)))
    (f : FunctionDescriptor) (cd : List Nat)
    (hres : resolve abi name args = .ok f)
    (henc : encodeFunctionData abi name args = .ok cd)
    (hexec : exec addr cd = .ok none ∨ exec addr cd = .ok (some [])) :
    (readContract abi addr name args exec = .ok .unit ↔ f.outputs = []) ∧
    (f.outputs ≠ [] →
      readContract abi addr name args exec =
        .error (.contract (getContractError (.decodeFailure .decodingError)
          abi addr name args))) := by
  have hcall : readContract abi addr name args exec =
      match decodeFunctionResult abi name args [] with
      | .error e =>
        .error (.contract (getContractError (.decodeFailure e) abi addr name args))
      | .ok r => .ok r := by
    rcases hexec with hx | hx
    · exact readContract_call_ok abi addr name args exec cd none henc hx
    · exact readContract_call_ok abi addr name args exec cd (some []) henc hx
  have hdfr : decodeFunctionResult abi name args [] = decode f [] := by
    unfold decodeFunctionResult
    simp only [hres]
  by_cases hout : f.outputs = []
  · have hd : decode f [] = .ok .unit := by
      simp [decode, hout]
    have hok : readContract abi addr name args exec = .ok .unit := by
      rw [hcall, hdfr]
      simp only [hd]
    exact ⟨⟨fun _ => hout, fun _ => hok⟩, fun hne => absurd hout hne⟩
  · have houtE : f.outputs.isEmpty = false := by
      cases h2 : f.outputs with
      | nil => exact absurd h2 hout
      | cons x xs => rfl
    have hd : decode f [] = .error .decodingError := by
      simp [decode, houtE]
    have herr : readContract abi addr name args exec =
        .error (.contract (getContractError (.decodeFailure .decodingError)
          abi addr name args)) := by
      rw [hcall, hdfr]
      simp only [hd]
    refine ⟨⟨fun habs => ?_, fun h0 => absurd h0 hout⟩, fun _ => herr⟩
    rw [herr] at habs
    exact absurd habs (by simp)

/-- A descriptor with no inputs and no outputs. -/
def voidFn : FunctionDescriptor :=
  { name := "ping", stateMutability := .view, inputs := [], outputs := [] }

/-- A one-function ABI around `voidFn`. -/
def voidAbi : List AbiItem := [.func voidFn]

/-- An executor that always succeeds with an absent response. -/
def emptyExec : Nat → List Nat → Except CallError (Option (List Nat)) :=
  fun _ _ => .ok none

set_option maxRecDepth 100000 in
set_option maxHeartbeats 1000000 in
/-- C8 (witness): an absent response succeeds for the output-less `ping` and
fails with the wrapped decoding error for `balanceOf`. -/
theorem c8_empty_response_witness :
    readContract voidAbi 1 "ping" [] emptyExec = .ok .unit ∧
    readContract balanceOfAbi 1 "balanceOf" [AbiValue.addr 2] emptyExec =
      .error (.contract (getContractError (.decodeFailure .decodingError)
        balanceOfAbi 1 "balanceOf" [AbiValue.addr 2])) := by
  constructor
  · exact (c8_empty_response voidAbi 1 "ping" [] emptyExec voidFn
      (selectorOf voidFn) (by decide) (by decide) (Or.inl rfl)).1.mpr rfl
  · exact (c8_empty_response balanceOfAbi 1 "balanceOf" [AbiValue.addr 2] emptyExec
      balanceOfFn (selectorOfSig "balanceOf(address)" ++ beBytes 32 2) (by decide)
      (by decide) (Or.inl rfl)).2 (by decide)

/-- C9: the Calldata Encoder is deterministic — two applications to identical
(descriptor, args) pairs yield byte-identical output; as a function of its
arguments alone it has no side effects to vary by. -/
theorem c9_encoder_deterministic (f g : FunctionDescriptor)
    (args brgs : List AbiValue) (hf : f = g) (ha : args = brgs) :
    encode f args = encode g brgs := by
  rw [hf, ha]

/-- C9 (witness): two applications at `balanceOf` and address 9. -/
theorem c9_encoder_deterministic_witness :
    encode balanceOfFn [AbiValue.addr 9] = encode balanceOfFn [AbiValue.addr 9] :=
  c9_encoder_deterministic balanceOfFn balanceOfFn
    [AbiValue.addr 9] [AbiValue.addr 9] rfl rfl

/-- C10: every error raised after the call is issued — including a decoding
error on a successful call's response — reaches the caller wrapped by the
Error Translator, and an error result is either an encoding-stage error that
occurred before the call or a translated `ContractError`; a bare decoding
error is never observed. -/
theorem c10_post_call_wrapped (abi : List AbiItem) (addr : Nat) (name : String)
    (args : List AbiValue)
    (exec : Nat → List Nat → Except CallError (Option (List Nat))) :
    (∀ (cd : List Nat) (dataOpt : Option (List Nat)) (e : AbiError),
      encodeFunctionData abi name args = .ok cd →
      exec addr cd = .ok dataOpt →
      decodeFunctionResult abi name args (dataOpt.getD []) = .error e →
      readContract abi addr name args exec =
        .error (.contract (getContractError (.decodeFailure e) abi addr name args))) ∧
    (∀ r : ReadError, readContract abi addr name args exec = .error r →
      (∃ e, r = .encoding e ∧ encodeFunctionData abi name args = .error e) ∨
      ∃ ce, r = .contract ce) := by
  constructor
  · intro cd dataOpt e hcd hx hdec
    rw [readContract_call_ok abi addr name args exec cd dataOpt hcd hx]
    simp only [hdec]
  · intro r hr
    cases hcd : encodeFunctionData abi name args with
    | error e =>
      left
      rw [readContract_enc_error abi addr name args exec e hcd] at hr
      have h1 : r = ReadError.encoding e := (Except.error.inj hr).symm
      exact ⟨e, h1, rfl⟩
    | ok cd =>
      right
      cases hx : exec addr cd with
      | error failure =>
        rw [readContract_call_error abi addr name args exec cd failure hcd hx] at hr
        exact ⟨_, (Except.error.inj hr).symm⟩
      | ok dataOpt =>
        rw [readContract_call_ok abi addr name args exec cd dataOpt hcd hx] at hr
        cases hd : decodeFunctionResult abi name args (dataOpt.getD []) with
        | error e =>
          simp only [hd] at hr
          exact ⟨_, (Except.error.inj hr).symm⟩
        | ok v =>
          simp only [hd] at hr
          exact absurd hr (by simp)

/-- An executor that always succeeds with a 16-byte response. -/
def shortExec : Nat → List Nat → Except CallError (Option (List Nat)) :=
  fun _ _ => .ok (some (List.replicate 16 0))

set_option maxRecDepth 100000 in
set_option maxHeartbeats 1000000 in
/-- C10 (witness): a decoding error on a successful call's 16-byte response
arrives wrapped by the translator. -/
theorem c10_post_call_wrapped_witness :
    readContract balanceOfAbi 9 "balanceOf" [AbiValue.addr 4] shortExec =
      .error (.contract (getContractError (.decodeFailure .decodingError)
        balanceOfAbi 9 "balanceOf" [AbiValue.addr 4])) :=
  (c10_post_call_wrapped balanceOfAbi 9 "balanceOf" [AbiValue.addr 4] shortExec).1
    (selectorOfSig "balanceOf(address)" ++ beBytes 32 4) (some (List.replicate 16 0))
    .decodingError (by decide) rfl (by decide)

end Viem
